import Mathlib

/-!
Verification development for the BookWise repository.

The repository ships the React/TypeScript frontend (under
`frontend/bookwise/src`); the FastAPI backend that implements the
Generation Cache & Single-Flight Engine is not part of the shipped
sources, so the store/coordinator definitions below are modelled from
the specification (each such definition says so in its doc comment).
The TypeScript API client (`src/api/client.ts`, `src/api/endpoints.ts`)
is embedded directly from the source.
-/

namespace BookWise

/-- Modelled from the spec: the fixed enumerated set of sections
(`overview`, `key_ideas`, `chapters`, `critique`), matching the
`GenerationSection` union in `src/api/client.ts`. -/
inductive SectionKind
  | overview
  | key_ideas
  | chapters
  | critique
deriving DecidableEq

/-- Modelled from the spec: the cache key is the
(book_id, section, provider, model, prompt_version) tuple (§4.1, I1). -/
structure CacheKey where
  book_id : String
  sectionKind : SectionKind
  provider : String
  model : String
  prompt_version : String
deriving DecidableEq

/-- Modelled from the spec: the `pending | complete | failed` status of a
GenerationRecord (§3). -/
inductive Status
  | pending
  | complete
  | failed
deriving DecidableEq

/-- Modelled from the spec: the error taxonomy of §7. -/
inductive ErrCode
  | schema_validation
  | provider_error
  | timeout
  | unexpected
deriving DecidableEq

/-- Modelled from the spec: one GenerationRecord row (§3).  The structured
`content` payload is modelled abstractly as a string. -/
structure GenRow where
  status : Status
  content : Option String
  error_code : Option ErrCode
  error_message : Option String
  attempt_count : Nat
  started_at : Nat
  finished_at : Option Nat
  created_at : Nat
  updated_at : Nat
deriving DecidableEq

/-- Modelled from the spec: the Generation Store, at most one row per cache
key (invariant I1 is built into the representation). -/
def Store : Type := CacheKey → Option GenRow

/-- The empty store: no GenerationRecord exists for any key. -/
def emptyStore : Store := fun _ => none

/-- Write one row at one key, leaving every other key untouched. -/
def setRow (st : Store) (k : CacheKey) (r : GenRow) : Store :=
  fun q => if q = k then some r else st q

/-- Modelled from the spec: `Lookup(key) -> GenerationRecord | NotFound`
(§4.2). -/
def lookupRow (st : Store) (k : CacheKey) : Option GenRow := st k

/-- Modelled from the spec: result of the claim operations (§4.2):
`Claimed` (with the attempt token), `AlreadyExists` (ClaimNew race loss)
or `Conflict` (ClaimRetry precondition failure). -/
inductive ClaimResult
  | claimed (token : Nat)
  | alreadyExists
  | conflictRes
deriving DecidableEq

/-- Modelled from the spec: `expectedPriorStatus ∈ {failed, complete}` for
`ClaimRetry` (§4.2). -/
inductive PriorStatus
  | priorComplete
  | priorFailed
deriving DecidableEq

/-- The Status denoted by an expected prior status. -/
def statusOfPrior : PriorStatus → Status
  | .priorComplete => .complete
  | .priorFailed => .failed

/-- Modelled from the spec: the outcome of a generation attempt handed to
`Finish` — `complete` with content, or `failed` with a categorized error
(§4.2, §4.3 step 4). -/
inductive Outcome
  | success (c : String)
  | failure (e : ErrCode) (msg : String)
deriving DecidableEq

/-- Modelled from the spec: result of `Finish` (§4.2): the write is either
committed, rejected as a stale attempt (token mismatch), or rejected
because the row is missing or not pending. -/
inductive FinishResult
  | finished
  | staleAttempt
  | notFoundRow
  | notPendingRow
deriving DecidableEq

/-- Modelled from the spec: `ClaimNew(key)` (§4.2) — inserts a new row with
`status=pending`, `attempt_count=1`, `started_at=now`; fails with
`AlreadyExists` when a row for the key already exists. -/
def claimNew (st : Store) (k : CacheKey) (now : Nat) : ClaimResult × Store :=
  match st k with
  | some _ => (.alreadyExists, st)
  | none =>
      (.claimed 1,
       setRow st k
         { status := .pending
           content := none
           error_code := none
           error_message := none
           attempt_count := 1
           started_at := now
           finished_at := none
           created_at := now
           updated_at := now })

/-- Modelled from the spec: `ClaimRetry(key, expectedPriorStatus)` (§4.2) —
transitions an existing row from exactly the expected terminal status to
`pending`, incrementing `attempt_count` and resetting `started_at`; fails
with `Conflict` otherwise.  The payload fields are cleared on re-entry to
`pending`, as invariant I2 requires of every pending row. -/
def claimRetry (st : Store) (k : CacheKey) (expected : PriorStatus) (now : Nat) :
    ClaimResult × Store :=
  match st k with
  | none => (.conflictRes, st)
  | some row =>
      if row.status = statusOfPrior expected then
        (.claimed (row.attempt_count + 1),
         setRow st k
           { row with
             status := .pending
             content := none
             error_code := none
             error_message := none
             attempt_count := row.attempt_count + 1
             started_at := now
             finished_at := none
             updated_at := now })
      else (.conflictRes, st)

/-- Modelled from the spec: `Finish(key, attemptToken, outcome)` (§4.2) —
transitions `pending → complete` (writing `content`, `finished_at`) or
`pending → failed` (writing `error_code`, `error_message`, `finished_at`);
rejects the write with `StaleAttempt` when the row's `attempt_count` no
longer matches the token captured at claim time, leaving the row
unchanged. -/
def finish (st : Store) (k : CacheKey) (token : Nat) (o : Outcome) (now : Nat) :
    FinishResult × Store :=
  match st k with
  | none => (.notFoundRow, st)
  | some row =>
      if row.attempt_count ≠ token then (.staleAttempt, st)
      else if row.status ≠ .pending then (.notPendingRow, st)
      else
        match o with
        | .success c =>
            (.finished,
             setRow st k
               { row with
                 status := .complete
                 content := some c
                 finished_at := some now
                 updated_at := now })
        | .failure e m =>
            (.finished,
             setRow st k
               { row with
                 status := .failed
                 error_code := some e
                 error_message := some m
                 finished_at := some now
                 updated_at := now })

/-- Modelled from the spec: one atomic store operation (§4.2), used to
describe arbitrary sequences of operations applied to the store. -/
inductive StoreOp
  | opClaimNew (k : CacheKey) (now : Nat)
  | opClaimRetry (k : CacheKey) (expected : PriorStatus) (now : Nat)
  | opFinish (k : CacheKey) (token : Nat) (o : Outcome) (now : Nat)

/-- Apply one store operation, keeping only the resulting store. -/
def applyOp (st : Store) : StoreOp → Store
  | .opClaimNew k now => (claimNew st k now).2
  | .opClaimRetry k expected now => (claimRetry st k expected now).2
  | .opFinish k token o now => (finish st k token o now).2

/-- Apply a sequence of store operations in order. -/
def applyOps (st : Store) : List StoreOp → Store
  | [] => st
  | op :: rest => applyOps (applyOp st op) rest

/-- Invariant I2 (status validity, §3): `content` is non-null iff
`status = complete`; `error_code` is non-null iff `status = failed`;
never both non-null. -/
def I2 (r : GenRow) : Prop :=
  (r.content ≠ none ↔ r.status = .complete) ∧
  (r.error_code ≠ none ↔ r.status = .failed) ∧
  ¬(r.content ≠ none ∧ r.error_code ≠ none)

/-- Every row present in the store satisfies invariant I2. -/
def StoreInv (st : Store) : Prop := ∀ k r, st k = some r → I2 r

/-- Modelled from the spec: an observable side effect of a Coordinator or
Status Service operation — an external producer invocation, or one
Diagnostics Emitter event (§4.3, §4.5). -/
inductive Effect
  | producerInvoked
  | emitted (tag : String)
deriving DecidableEq

/-- Embedded from `src/api/client.ts` (`GenerationResponse`): the success
response of `RequestGeneration`.  The declared `status?: "complete"` field
is optional, so it is an `Option`; when present its literal type forces the
value `"complete"`. -/
structure GenerationResponseV where
  book_id : String
  sectionKind : SectionKind
  prompt_version : String
  provider : String
  model : String
  stored : Bool
  statusField : Option String
  content : Option String
deriving DecidableEq

/-- Embedded from `src/api/client.ts` (`GenerationPendingResponse`): the
pending marker.  The declaration has exactly the fields
`stored: false`, `in_progress: true`, `retry_after_ms: number` and the
optional `cache_key`; it declares no `status` field. -/
structure GenerationPendingResponseV where
  stored : Bool
  in_progress : Bool
  retry_after_ms : Nat
  cache_key : Option CacheKey
deriving DecidableEq

/-- Modelled from the spec: the caller-visible retry hint attached to
pending responses; the spec fixes no concrete value, only that it is
non-zero (§7 user-visible behavior), so a positive constant is used. -/
def RETRY_AFTER_MS : Nat := 1500

/-- A complete-content response for a key, per the §6 wire contract. -/
def mkCompleteResp (k : CacheKey) (content : Option String) (stored : Bool) :
    GenerationResponseV :=
  { book_id := k.book_id
    sectionKind := k.sectionKind
    prompt_version := k.prompt_version
    provider := k.provider
    model := k.model
    stored := stored
    statusField := some "complete"
    content := content }

/-- A pending marker for a key, per the §6 wire contract. -/
def mkPending (k : CacheKey) : GenerationPendingResponseV :=
  { stored := false
    in_progress := true
    retry_after_ms := RETRY_AFTER_MS
    cache_key := some k }

/-- Modelled from the spec: the result of one `RequestGeneration` call —
content, pending marker, safe failure body, or the pre-claim error raised
when the metadata collaborator cannot resolve the book (§4.3, §7). -/
inductive GenResult
  | completeResult (r : GenerationResponseV)
  | pendingResult (p : GenerationPendingResponseV)
  | failedResult (e : Option ErrCode)
  | resolveError
deriving DecidableEq

/-- The full outcome of one Coordinator operation: the caller-visible
result, the store after the call, and the observable side effects. -/
structure RGOut where
  result : GenResult
  store : Store
  effects : List Effect

/-- Modelled from the spec: the generate phase of the Coordinator (§4.3
step 4) after a successful claim with token `t` — invoke the external
producer (whose validated outcome is the parameter `prodOut`), then
`Finish` the attempt and build the caller response. -/
def generatePhase (st : Store) (k : CacheKey) (t : Nat) (prodOut : Outcome)
    (now : Nat) : RGOut :=
  match finish st k t prodOut now with
  | (.finished, st2) =>
      match prodOut with
      | .success c =>
          { result := .completeResult (mkCompleteResp k (some c) false)
            store := st2
            effects := [.producerInvoked, .emitted "generated"] }
      | .failure e _ =>
          { result := .failedResult (some e)
            store := st2
            effects := [.producerInvoked, .emitted "generation_failed"] }
  | (_, st2) =>
      { result := .pendingResult (mkPending k)
        store := st2
        effects := [.producerInvoked, .emitted "stale_discarded"] }

/-- Modelled from the spec: `RequestGeneration(bookId, section, config,
force)` (§4.3).  `resolveOk` is the metadata collaborator's verdict
(step 1); `prodOut` stands for the producer-plus-validation outcome used
when a claim succeeds.  The decision table of §4.3 is followed branch by
branch; claim race losses re-lookup and answer with the pending marker. -/
def requestGeneration (resolveOk : Bool) (st : Store) (k : CacheKey)
    (force : Bool) (prodOut : Outcome) (now : Nat) : RGOut :=
  if resolveOk = false then
    { result := .resolveError, store := st, effects := [] }
  else
    match st k with
    | none =>
        match claimNew st k now with
        | (.claimed t, st1) => generatePhase st1 k t prodOut now
        | (_, _) =>
            { result := .pendingResult (mkPending k)
              store := st
              effects := [.emitted "claim_race_lost"] }
    | some row =>
        match row.status, force with
        | .complete, false =>
            { result := .completeResult (mkCompleteResp k row.content true)
              store := st
              effects := [.emitted "cache_hit"] }
        | .complete, true =>
            match claimRetry st k .priorComplete now with
            | (.claimed t, st1) => generatePhase st1 k t prodOut now
            | (_, _) =>
                { result := .pendingResult (mkPending k)
                  store := st
                  effects := [.emitted "claim_race_lost"] }
        | .pending, _ =>
            { result := .pendingResult (mkPending k)
              store := st
              effects := [.emitted "pending_hit"] }
        | .failed, false =>
            { result := .failedResult row.error_code
              store := st
              effects := [.emitted "failed_cached"] }
        | .failed, true =>
            match claimRetry st k .priorFailed now with
            | (.claimed t, st1) => generatePhase st1 k t prodOut now
            | (_, _) =>
                { result := .pendingResult (mkPending k)
                  store := st
                  effects := [.emitted "claim_race_lost"] }

/-- Modelled from the spec: the §6 `GetStatus` projection — one of
`missing`, `pending` (with `in_progress` and the retry hint), `complete`
(with `stored` and `updated_at`) or `failed` (with `error_code`). -/
inductive StatusView
  | missingV
  | pendingV (in_progress : Bool) (retry_after_ms : Nat)
  | completeV (stored : Bool) (updated_at : Nat)
  | failedV (error_code : Option ErrCode)
deriving DecidableEq

/-- Modelled from the spec: `GetStatus(key)` (§4.5), a read-only projection
over the Generation Store. -/
def getStatus (st : Store) (k : CacheKey) : StatusView :=
  match st k with
  | none => .missingV
  | some row =>
      match row.status with
      | .pending => .pendingV true RETRY_AFTER_MS
      | .complete => .completeV true row.updated_at
      | .failed => .failedV row.error_code

/-- Modelled from the spec: the Status Service operation in the same
effectful shape as the Coordinator: view produced, store afterwards, and
observable side effects (one diagnostics event, nothing else). -/
def getStatusOp (st : Store) (k : CacheKey) : StatusView × Store × List Effect :=
  (getStatus st k, st, [.emitted "status_poll"])

/-- Run a sequence of status polls, threading the store each poll leaves
behind into the next one. -/
def pollMany (st : Store) : List CacheKey → Store
  | [] => st
  | k :: ks => pollMany (getStatusOp st k).2.1 ks

/-- Embedded from `src/api/client.ts`: the TypeScript types that can occur
in the two generation response declarations. -/
inductive TsTy
  | tsString
  | tsNumber
  | tsBool
  | tsBoolLit (b : Bool)
  | tsStrLit (s : String)
  | tsStrEnum (ss : List String)
  | tsNullable (t : TsTy)
  | tsRecordTy
deriving DecidableEq

/-- One declared field of a TypeScript object type: its name, whether it is
required (no `?` marker), and its type. -/
structure TsField where
  fname : String
  required : Bool
  ty : TsTy
deriving DecidableEq

/-- Find a declared field by name. -/
def lookupTsField (fs : List TsField) (name : String) : Option TsField :=
  fs.find? (fun f => f.fname = name)

/-- Embedded from `src/api/client.ts` lines 108-117: the declared fields of
`GenerationResponse`, in declaration order.  `status?: "complete"` is
optional; `content` is `Record<string, unknown> | null`. -/
def generationResponseFields : List TsField :=
  [ { fname := "book_id", required := true, ty := .tsString }
  , { fname := "section", required := true,
      ty := .tsStrEnum ["overview", "key_ideas", "chapters", "critique"] }
  , { fname := "prompt_version", required := true, ty := .tsString }
  , { fname := "provider", required := true, ty := .tsString }
  , { fname := "model", required := true, ty := .tsString }
  , { fname := "stored", required := true, ty := .tsBool }
  , { fname := "status", required := false, ty := .tsStrLit "complete" }
  , { fname := "content", required := true, ty := .tsNullable .tsRecordTy } ]

/-- Embedded from `src/api/client.ts` lines 119-124: the declared fields of
`GenerationPendingResponse`, in declaration order.  `stored` and
`in_progress` have literal types; `cache_key?` is optional; no `status`
field is declared. -/
def generationPendingResponseFields : List TsField :=
  [ { fname := "stored", required := true, ty := .tsBoolLit false }
  , { fname := "in_progress", required := true, ty := .tsBoolLit true }
  , { fname := "retry_after_ms", required := true, ty := .tsNumber }
  , { fname := "cache_key", required := false, ty := .tsRecordTy } ]

/-- Follows the spec's words (§6): the pending marker is
`\x7bstored: false, in_progress: true, retry_after_ms, status: "pending",
cache_key\x7d`, so the spec lists these five field names. -/
def specPendingMarkerFieldNames : List String :=
  ["stored", "in_progress", "retry_after_ms", "status", "cache_key"]

/-- Follows the spec's words (§6): the success response carries
`status: "complete"` as an always-present field, so the spec marks the
`status` field as required. -/
def specGenerationResponseStatusField : TsField :=
  { fname := "status", required := true, ty := .tsStrLit "complete" }

/-- Does the character list consist of zero or more ASCII digits followed
by a single final `W`?  Used to express the tail of the JavaScript regular
expression `OL\\d+W`. -/
def digitsW : List Char → Bool
  | ['W'] => true
  | c :: rest => c.isDigit && digitsW rest
  | [] => false

/-- Embedded from `src/api/endpoints.ts`: the test of the anchored regular
expression `OL` followed by one or more ASCII digits followed by `W`,
matching the whole string. -/
def isWorkIdChars : List Char → Bool
  | 'O' :: 'L' :: rest => decide (2 ≤ rest.length) && digitsW rest
  | _ => false

/-- Is the first character list an initial segment of the second? -/
def leadsWith : List Char → List Char → Bool
  | [], _ => true
  | _ :: _, [] => false
  | a :: as, b :: bs => a = b && leadsWith as bs

/-- Embedded from `src/api/endpoints.ts`: the scan performed by
`value.match` with the end-anchored pattern `/works/` followed by a
captured work id: at each position, a match requires the remainder of the
string to be `/works/` immediately followed by a full work id running to
the end (7 is the length of `/works/`); the capture of the first
(leftmost) match is returned. -/
def extractWorks (cs : List Char) : Option (List Char) :=
  match cs with
  | [] => none
  | _ :: rest =>
      if leadsWith "/works/".data cs && isWorkIdChars (cs.drop 7) then
        some (cs.drop 7)
      else extractWorks rest

/-- Embedded from `src/api/endpoints.ts`: the string branch of
`normalizeWorkId` — return the string itself when it is already a work id,
else the capture of the end-anchored `/works/` pattern, else null. -/
def normStr (s : String) : Option String :=
  if isWorkIdChars s.data then some s
  else
    match extractWorks s.data with
    | some tail => some (String.mk tail)
    | none => none

mutual
/-- A JavaScript value as observed by `normalizeWorkId`: a string, an
object (a finite map from property names to values), or any other value
(null, undefined, number, boolean, ...), for which both `typeof value ===
"string"` and the object branch guard are false. -/
inductive JsVal
  | vstr (s : String)
  | vobj (fields : JsFields)
  | vother

/-- The property list of a JavaScript object. -/
inductive JsFields
  | fnil
  | fcons (k : String) (v : JsVal) (rest : JsFields)
end

/-- Property access: the value of the first property with the given name,
or `none` when the object has no such property (JavaScript `undefined`). -/
def jsGet : JsFields → String → Option JsVal
  | .fnil, _ => none
  | .fcons k v rest, name => if k = name then some v else jsGet rest name

mutual
/-- Embedded from `src/api/endpoints.ts` (`normalizeWorkId`): strings go
through the two regular-expression checks; objects recurse through
`work_id`, then `id`, then `key`, combined with the JavaScript `??`
operator; everything else yields null.  Recursion into a property value is
performed by `normLookup`, which fuses the property access with the
recursive call; `normLookup_eq_jsGet` below shows it agrees with access
followed by recursion. -/
def normalizeWorkId : JsVal → Option String
  | .vstr s => normStr s
  | .vobj fields =>
      match normLookup fields "work_id" with
      | some r => some r
      | none =>
          match normLookup fields "id" with
          | some r => some r
          | none => normLookup fields "key"
  | .vother => none
termination_by structural v => v

/-- `normalizeWorkId` applied to the named property of an object: an
absent property is JavaScript `undefined`, on which `normalizeWorkId`
returns null. -/
def normLookup : JsFields → String → Option String
  | .fnil, _ => none
  | .fcons k v rest, name =>
      if k = name then normalizeWorkId v else normLookup rest name
termination_by structural fs _ => fs
end

/-- The fused `normLookup` agrees with property access via `jsGet`
followed by `normalizeWorkId`, i.e. with the source's
`normalizeWorkId(record.work_id)` reading. -/
theorem normLookup_eq_jsGet : ∀ (fs : JsFields) (name : String),
    normLookup fs name =
      match jsGet fs name with
      | none => none
      | some v => normalizeWorkId v
  | .fnil, _ => by simp [normLookup, jsGet]
  | .fcons k v rest, name => by
      by_cases h : k = name
      · simp [normLookup, jsGet, h]
      · simp [normLookup, jsGet, h, normLookup_eq_jsGet rest name]
termination_by fs _ => sizeOf fs

mutual
/-- A parsed JavaScript/JSON body value as handled by `parseBody` and the
non-ok branch of `requestJson` in `src/api/client.ts`. -/
inductive JsBody
  | jnull
  | jboolB (b : Bool)
  | jnum (n : Int)
  | jstr (s : String)
  | jarr (xs : JsArr)
  | jobj (fs : JsObjFields)

/-- The element list of a JSON array. -/
inductive JsArr
  | anil
  | acons (v : JsBody) (rest : JsArr)

/-- The property list of a JSON object. -/
inductive JsObjFields
  | onil
  | ocons (k : String) (v : JsBody) (rest : JsObjFields)
end

/-- Property lookup on a parsed JSON object. -/
def lookupObj : JsObjFields → String → Option JsBody
  | .onil, _ => none
  | .ocons k v rest, name => if k = name then some v else lookupObj rest name

mutual
/-- The JavaScript `String(x)` coercion, as applied to `body.detail` by
`requestJson`: null prints `null`, booleans and numbers print their
values, strings are unchanged, arrays join their elements with commas
(null elements joining as empty), objects print `[object Object]`. -/
def jsStringOf : JsBody → String
  | .jnull => "null"
  | .jboolB true => "true"
  | .jboolB false => "false"
  | .jnum n => toString n
  | .jstr s => s
  | .jarr xs => arrJoin xs
  | .jobj _ => "[object Object]"
termination_by structural b => b

/-- The comma join used by the JavaScript array-to-string coercion; a null
element joins as the empty string. -/
def arrJoin : JsArr → String
  | .anil => ""
  | .acons .jnull .anil => ""
  | .acons v .anil => jsStringOf v
  | .acons .jnull rest => "," ++ arrJoin rest
  | .acons v rest => jsStringOf v ++ "," ++ arrJoin rest
termination_by structural xs => xs
end

/-- Embedded from `src/api/client.ts`: the `detail` extraction of the
non-ok branch — defined exactly when
`typeof body === "object" && body !== null && "detail" in body` holds,
which is true only of objects carrying a `detail` property (arrays have
none). -/
def getDetail : JsBody → Option JsBody
  | .jobj fs => lookupObj fs "detail"
  | _ => none

/-- Embedded from `src/api/client.ts`: the message of the `ApiError` thrown
on a non-ok response: `String(body.detail)` when the parsed body is an
object with a `detail` property, else `Request failed (<status>)`. -/
def errMessage (body : JsBody) (status : Nat) : String :=
  match getDetail body with
  | some d => jsStringOf d
  | none => "Request failed (" ++ toString status ++ ")"

/-- A thrown JavaScript error as classified by the catch clause of
`requestJson`: a `DOMException` with its `name`, an `ApiError` with its
`message`, `status` and `body`, or any other error value. -/
inductive JsErr
  | domException (name : String)
  | apiError (message : String) (status : Nat) (body : JsBody)
  | otherErr

/-- Does the second character list contain the first as a contiguous
segment?  Models JavaScript `String.prototype.includes`. -/
def hasSub (needle : List Char) : List Char → Bool
  | [] => leadsWith needle []
  | hay@(_ :: rest) => leadsWith needle hay || hasSub needle rest

/-- Embedded from `src/api/client.ts`: one fetch response as observed by
`requestJson`: its `ok` flag, HTTP `status`, `content-type` header (absent
modelled as `none`), and the behaviors of `response.json()` and
`response.text()` — each either a value or a thrown error. -/
structure FetchResponse where
  ok : Bool
  status : Nat
  contentType : Option String
  jsonResult : Except JsErr JsBody
  textResult : Except JsErr String

/-- The outcome of the `fetch` call itself: a response, or a thrown error
(for example the `AbortError` `DOMException` raised on timeout or caller
abort). -/
inductive FetchResult
  | resp (r : FetchResponse)
  | ferr (e : JsErr)

/-- The settled state of the promise returned by `requestJson`. -/
inductive ReqResult
  | fulfilled (b : JsBody)
  | rejected (e : JsErr)

/-- Embedded from `src/api/client.ts` (`parseBody`): when the
`content-type` header (defaulted to the empty string) contains
`application/json`, the body is `response.json()`; otherwise it is the
response text, with an empty text yielding null. -/
def parseBodyModel (r : FetchResponse) : Except JsErr JsBody :=
  let ct := (r.contentType.getD "")
  if hasSub "application/json".data ct.data then r.jsonResult
  else
    match r.textResult with
    | .error e => .error e
    | .ok t => .ok (if 0 < t.length then .jstr t else .jnull)

/-- Embedded from `src/api/client.ts` (`requestJson`): the try block —
propagate a fetch error, propagate a body-parse error, throw an `ApiError`
carrying the message, HTTP status and parsed body when the response is not
ok, and otherwise produce the parsed body. -/
def tryPhase (f : FetchResult) : Except JsErr JsBody :=
  match f with
  | .ferr e => .error e
  | .resp r =>
      match parseBodyModel r with
      | .error e => .error e
      | .ok body =>
          if r.ok = false then
            .error (.apiError (errMessage body r.status) r.status body)
          else .ok body

/-- Embedded from `src/api/client.ts` (`requestJson`): the try block
followed by the catch clause, which converts exactly the `AbortError`
`DOMException` into `ApiError("Request timed out or was cancelled", 408,
null)` and rethrows every other error unchanged. -/
def requestJsonModel (f : FetchResult) : ReqResult :=
  match tryPhase f with
  | .ok b => .fulfilled b
  | .error e =>
      match e with
      | .domException name =>
          if name = "AbortError" then
            .rejected (.apiError "Request timed out or was cancelled" 408 .jnull)
          else .rejected (.domException name)
      | other => .rejected other

/-- Does the promise reject with an `ApiError`? -/
def isApiErrorRejection : ReqResult → Bool
  | .rejected (.apiError _ _ _) => true
  | _ => false

/-- Modelled from the spec: the response one concurrent `RequestGeneration`
session eventually returns in the single-flight scenario — the pending
marker, the fresh complete content, or the safe failure body (§4.3, §8). -/
inductive SResp
  | rPending
  | rComplete (c : Option String)
  | rFailed
deriving DecidableEq

/-- Modelled from the spec: the control point of one in-flight
`RequestGeneration(force=false)` session: before its `Lookup`, before its
`ClaimNew`, re-looking-up after a claim race loss, about to invoke the
producer with its claim token, about to `Finish` with the producer's
outcome, or finished with its response (§4.3, §5). -/
inductive SPC
  | atLookup
  | atClaim
  | atRelookup
  | atProduce (t : Nat)
  | atFinish (t : Nat) (o : Outcome)
  | sdone (r : SResp)
deriving DecidableEq

/-- The response a finishing winner returns for a producer outcome. -/
def respOf : Outcome → SResp
  | .success c => .rComplete (some c)
  | .failure _ _ => .rFailed

/-- The terminal row status recorded for a producer outcome. -/
def statusOfOutcome : Outcome → Status
  | .success _ => .complete
  | .failure _ _ => .failed

/-- Modelled from the spec: the shared state of `n` concurrent
`RequestGeneration` sessions on one cache key: the Generation Store, each
session's control point, and two event counters — external producer
invocations and committed `Finish` transitions (§5, §8). -/
structure CState (n : Nat) where
  store : Store
  pcs : Fin n → SPC
  prodCount : Nat
  finCount : Nat

/-- The initial state: a store, all sessions about to perform their
`Lookup`, no producer invocation and no committed transition yet. -/
def initState (n : Nat) (st0 : Store) : CState n :=
  { store := st0, pcs := fun _ => .atLookup, prodCount := 0, finCount := 0 }

/-- Modelled from the spec: one atomic step of the interleaved execution of
`n` concurrent `RequestGeneration(force=false)` sessions on key `k`
(§4.3, §5).  Every store access is one of the atomic store operations.
Lookups here observe only an absent or a pending row: this captures the
claim's premise that all `n` calls arrive while the key is absent — that
is, no session first interrogates the store after the single flight has
already finished.  A session that sees an absent row proceeds to
`ClaimNew`; the unique claim winner invokes the producer exactly once and
then `Finish`es; claim race losers re-lookup and answer with the pending
marker; sessions that observe a pending row answer with the pending
marker. -/
inductive cstep (k : CacheKey) : {n : Nat} → CState n → CState n → Prop
  | lookAbsent (s : CState n) (i : Fin n)
      (hpc : s.pcs i = .atLookup) (hst : s.store k = none) :
      cstep k s
        { store := s.store, pcs := Function.update s.pcs i .atClaim
          prodCount := s.prodCount, finCount := s.finCount }
  | lookPending (s : CState n) (i : Fin n) (row : GenRow)
      (hpc : s.pcs i = .atLookup) (hst : s.store k = some row)
      (hrow : row.status = .pending) :
      cstep k s
        { store := s.store, pcs := Function.update s.pcs i (.sdone .rPending)
          prodCount := s.prodCount, finCount := s.finCount }
  | claimWin (s : CState n) (i : Fin n) (now t : Nat) (st1 : Store)
      (hpc : s.pcs i = .atClaim)
      (hc : claimNew s.store k now = (.claimed t, st1)) :
      cstep k s
        { store := st1, pcs := Function.update s.pcs i (.atProduce t)
          prodCount := s.prodCount, finCount := s.finCount }
  | claimLose (s : CState n) (i : Fin n) (now : Nat)
      (hpc : s.pcs i = .atClaim)
      (hc : (claimNew s.store k now).1 = .alreadyExists) :
      cstep k s
        { store := s.store, pcs := Function.update s.pcs i .atRelookup
          prodCount := s.prodCount, finCount := s.finCount }
  | relook (s : CState n) (i : Fin n) (hpc : s.pcs i = .atRelookup) :
      cstep k s
        { store := s.store, pcs := Function.update s.pcs i (.sdone .rPending)
          prodCount := s.prodCount, finCount := s.finCount }
  | produce (s : CState n) (i : Fin n) (t : Nat) (o : Outcome)
      (hpc : s.pcs i = .atProduce t) :
      cstep k s
        { store := s.store, pcs := Function.update s.pcs i (.atFinish t o)
          prodCount := s.prodCount + 1, finCount := s.finCount }
  | finishCommit (s : CState n) (i : Fin n) (t : Nat) (o : Outcome)
      (now : Nat) (st1 : Store)
      (hpc : s.pcs i = .atFinish t o)
      (hf : finish s.store k t o now = (.finished, st1)) :
      cstep k s
        { store := st1, pcs := Function.update s.pcs i (.sdone (respOf o))
          prodCount := s.prodCount, finCount := s.finCount + 1 }
  | finishStale (s : CState n) (i : Fin n) (t : Nat) (o : Outcome) (now : Nat)
      (hpc : s.pcs i = .atFinish t o)
      (hf : (finish s.store k t o now).1 = .staleAttempt) :
      cstep k s
        { store := s.store, pcs := Function.update s.pcs i (.sdone .rPending)
          prodCount := s.prodCount, finCount := s.finCount }

/-- The control points a session other than the claim winner can occupy in
the single-flight scenario. -/
def NonWinnerPC (p : SPC) : Prop :=
  p = .atLookup ∨ p = .atClaim ∨ p = .atRelookup ∨ p = .sdone .rPending

/-- The phases the claim winner moves through, together with the row state
and the two event counters at each phase. -/
def WinnerPhase (row : GenRow) (p : SPC) (prodC finC : Nat) : Prop :=
  (p = .atProduce 1 ∧ row.status = .pending ∧ prodC = 0 ∧ finC = 0)
  ∨ (∃ o, p = .atFinish 1 o ∧ row.status = .pending ∧ prodC = 1 ∧ finC = 0)
  ∨ (∃ o, p = .sdone (respOf o) ∧ row.status = statusOfOutcome o ∧
      prodC = 1 ∧ finC = 1)

/-- The single-flight invariant: either no row exists yet, nothing has
happened and every session is before its claim; or the row exists with
`attempt_count = 1`, exactly one winner session is in one of the winner
phases, and every other session is at a non-winner control point. -/
def SFInv (k : CacheKey) {n : Nat} (s : CState n) : Prop :=
  (s.store k = none ∧ s.prodCount = 0 ∧ s.finCount = 0 ∧
    ∀ i, s.pcs i = .atLookup ∨ s.pcs i = .atClaim)
  ∨ (∃ row w, s.store k = some row ∧ row.attempt_count = 1 ∧
      WinnerPhase row (s.pcs w) s.prodCount s.finCount ∧
      ∀ i, i ≠ w → NonWinnerPC (s.pcs i))

/-- A concrete cache key used by the witness instantiations. -/
def wKey : CacheKey :=
  { book_id := "OL1W", sectionKind := .overview, provider := "openai"
    model := "gpt-4", prompt_version := "v1" }

/-- A concrete pending row on its second attempt, for the stale-finish
witness. -/
def wRowPending2 : GenRow :=
  { status := .pending, content := none, error_code := none
    error_message := none, attempt_count := 2, started_at := 5
    finished_at := none, created_at := 1, updated_at := 5 }

/-- A store carrying the second-attempt pending row at the witness key. -/
def wStoreP2 : Store := setRow emptyStore wKey wRowPending2

/-- C2: a `Finish` whose attempt token no longer equals the row's current
`attempt_count` is rejected with `StaleAttempt` and leaves the store — in
particular the row — unchanged, so an older attempt's result is never
persisted over a state produced by a newer claim, whatever the order in
which the attempts' external calls return. -/
theorem finish_stale_rejected (st : Store) (k : CacheKey) (row : GenRow)
    (token : Nat) (o : Outcome) (now : Nat)
    (hrow : st k = some row) (htok : token ≠ row.attempt_count) :
    finish st k token o now = (.staleAttempt, st) := by
  simp [finish, hrow, Ne.symm htok]

/-- Witness for C2: an attempt with token 1 finishing over a row already
reclaimed to `attempt_count = 2` is rejected and the store is unchanged. -/
theorem finish_stale_rejected_witness :
    wStoreP2 wKey = some wRowPending2 ∧
    (1 : Nat) ≠ wRowPending2.attempt_count ∧
    finish wStoreP2 wKey 1 (.success "late") 9 = (.staleAttempt, wStoreP2) := by
  have h1 : wStoreP2 wKey = some wRowPending2 := by decide
  have h2 : (1 : Nat) ≠ wRowPending2.attempt_count := by decide
  exact ⟨h1, h2, finish_stale_rejected wStoreP2 wKey wRowPending2 1 (.success "late") 9 h1 h2⟩

/-- C8: when the metadata collaborator cannot resolve the book, the request
fails before the claim step: the caller receives the resolution error, no
producer invocation or diagnostics beyond the failure happen, and the
Generation Store is returned unchanged — no GenerationRecord row is
created. -/
theorem requestGeneration_preclaim_failure (st : Store) (k : CacheKey)
    (force : Bool) (o : Outcome) (now : Nat) :
    requestGeneration false st k force o now =
      { result := .resolveError, store := st, effects := [] } := by
  simp [requestGeneration]

/-- C7: `GetStatus` is strictly observational: for every key and store it
returns the store unchanged and performs no producer invocation (its only
effect is one diagnostics event), and any sequence of status polls leaves
the Generation Store exactly as it was. -/
theorem getStatus_observational :
    (∀ st k, (getStatusOp st k).2.1 = st ∧
      Effect.producerInvoked ∉ (getStatusOp st k).2.2) ∧
    (∀ ks st, pollMany st ks = st) := by
  refine ⟨fun st k => ⟨rfl, by simp [getStatusOp]⟩, ?_⟩
  intro ks
  induction ks with
  | nil => intro st; rfl
  | cons k rest ih => intro st; simpa [pollMany, getStatusOp] using ih st

/-- The empty store vacuously satisfies invariant I2. -/
theorem emptyStore_inv : StoreInv emptyStore := by
  intro k r hkr
  simp [emptyStore] at hkr

/-- C4: invariant I2 (status validity) holds of every reachable
GenerationRecord: it is preserved by each store operation (`ClaimNew`,
`ClaimRetry`, `Finish`), and consequently every store reached from the
empty store by any sequence of operations satisfies it. -/
theorem gen_store_I2 :
    (∀ st, StoreInv st → ∀ op, StoreInv (applyOp st op)) ∧
    (∀ ops, StoreInv (applyOps emptyStore ops)) := by
  have pres : ∀ st, StoreInv st → ∀ op, StoreInv (applyOp st op) := by
    intro st h op
    cases op with
    | opClaimNew k now =>
        intro q r hq
        cases hst : st k with
        | some row =>
            simp [applyOp, claimNew, hst] at hq
            exact h q r hq
        | none =>
            simp [applyOp, claimNew, hst, setRow] at hq
            by_cases hqk : q = k
            · rw [if_pos hqk] at hq
              injection hq with hq
              rw [← hq]
              simp [I2]
            · rw [if_neg hqk] at hq
              exact h q r hq
    | opClaimRetry k exp now =>
        intro q r hq
        cases hst : st k with
        | none =>
            simp [applyOp, claimRetry, hst] at hq
            exact h q r hq
        | some row =>
            by_cases hs : row.status = statusOfPrior exp
            · simp [applyOp, claimRetry, hst, hs, setRow] at hq
              by_cases hqk : q = k
              · rw [if_pos hqk] at hq
                injection hq with hq
                rw [← hq]
                simp [I2]
              · rw [if_neg hqk] at hq
                exact h q r hq
            · simp [applyOp, claimRetry, hst, hs] at hq
              exact h q r hq
    | opFinish k token o now =>
        intro q r hq
        cases hst : st k with
        | none =>
            simp [applyOp, finish, hst] at hq
            exact h q r hq
        | some row =>
            by_cases h1 : row.attempt_count = token
            · by_cases h2 : row.status = .pending
              · obtain ⟨hC, hE, _⟩ := h k row hst
                have hcont : row.content = none := by
                  by_contra hne
                  have := hC.mp hne
                  rw [h2] at this
                  cases this
                have herr : row.error_code = none := by
                  by_contra hne
                  have := hE.mp hne
                  rw [h2] at this
                  cases this
                cases o with
                | success c =>
                    simp [applyOp, finish, hst, h1, h2, setRow] at hq
                    by_cases hqk : q = k
                    · rw [if_pos hqk] at hq
                      injection hq with hq
                      rw [← hq]
                      simp [I2, herr]
                    · rw [if_neg hqk] at hq
                      exact h q r hq
                | failure e m =>
                    simp [applyOp, finish, hst, h1, h2, setRow] at hq
                    by_cases hqk : q = k
                    · rw [if_pos hqk] at hq
                      injection hq with hq
                      rw [← hq]
                      simp [I2, hcont]
                    · rw [if_neg hqk] at hq
                      exact h q r hq
              · simp [applyOp, finish, hst, h1, h2] at hq
                exact h q r hq
            · simp [applyOp, finish, hst, h1] at hq
              exact h q r hq
  refine ⟨pres, ?_⟩
  have hgen : ∀ ops st, StoreInv st → StoreInv (applyOps st ops) := by
    intro ops
    induction ops with
    | nil => exact fun st hst => hst
    | cons op rest ih => exact fun st hst => ih (applyOp st op) (pres st hst op)
  exact fun ops => hgen ops emptyStore emptyStore_inv

/-- Witness for C4: the invariant hypothesis is satisfiable (empty store)
and is carried through a concrete claim and a concrete finish. -/
theorem gen_store_I2_witness :
    StoreInv emptyStore ∧
    StoreInv (applyOp emptyStore (.opClaimNew wKey 3)) ∧
    StoreInv (applyOps emptyStore
      [.opClaimNew wKey 3, .opFinish wKey 1 (.success "body") 9]) :=
  ⟨emptyStore_inv, gen_store_I2.1 emptyStore emptyStore_inv _, gen_store_I2.2 _⟩

/-- C3: a `RequestGeneration(force=false)` call on a `Complete` record
returns the cached content exactly as stored (`stored = true`), leaves the
store untouched and performs no producer invocation; since the store is
unchanged, an immediately repeated call returns the identical response, so
repeated calls are idempotent. -/
theorem complete_cached_idempotent (st : Store) (k : CacheKey) (row : GenRow)
    (o o2 : Outcome) (now now2 : Nat)
    (hrow : st k = some row) (hcomp : row.status = .complete) :
    requestGeneration true st k false o now =
      { result := .completeResult (mkCompleteResp k row.content true)
        store := st
        effects := [.emitted "cache_hit"] } ∧
    requestGeneration true (requestGeneration true st k false o now).store
        k false o2 now2 =
      { result := .completeResult (mkCompleteResp k row.content true)
        store := st
        effects := [.emitted "cache_hit"] } ∧
    Effect.producerInvoked ∉ (requestGeneration true st k false o now).effects := by
  have h1 : requestGeneration true st k false o now =
      { result := .completeResult (mkCompleteResp k row.content true)
        store := st
        effects := [.emitted "cache_hit"] } := by
    simp [requestGeneration, hrow, hcomp]
  refine ⟨h1, ?_, ?_⟩
  · rw [h1]
    simp [requestGeneration, hrow, hcomp]
  · rw [h1]
    simp

/-- A concrete complete row, for the cached-completion witness. -/
def wRowComplete : GenRow :=
  { status := .complete, content := some "cached body", error_code := none
    error_message := none, attempt_count := 1, started_at := 2
    finished_at := some 3, created_at := 2, updated_at := 3 }

/-- A store carrying the complete row at the witness key. -/
def wStoreC : Store := setRow emptyStore wKey wRowComplete

/-- Witness for C3: the cached-completion theorem applied to a concrete
complete record. -/
theorem complete_cached_idempotent_witness :
    wStoreC wKey = some wRowComplete ∧
    wRowComplete.status = .complete ∧
    requestGeneration true wStoreC wKey false (.success "fresh") 7 =
      { result := .completeResult (mkCompleteResp wKey (some "cached body") true)
        store := wStoreC
        effects := [.emitted "cache_hit"] } := by
  have h1 : wStoreC wKey = some wRowComplete := by decide
  have h2 : wRowComplete.status = .complete := rfl
  exact ⟨h1, h2,
    (complete_cached_idempotent wStoreC wKey wRowComplete
      (.success "fresh") (.success "fresh") 7 7 h1 h2).1⟩

/-- Every pending result the Coordinator produces is the §6 pending marker
for the requested key. -/
theorem rg_pending_shape (ro : Bool) (st : Store) (k : CacheKey) (f : Bool)
    (o : Outcome) (now : Nat) (p : GenerationPendingResponseV)
    (h : (requestGeneration ro st k f o now).result = .pendingResult p) :
    p = mkPending k := by
  unfold requestGeneration generatePhase at h
  repeat' split at h
  all_goals simp_all

/-- Every complete result the Coordinator produces carries the requested
key's identity fields and the literal status value of the declaration. -/
theorem rg_complete_shape (ro : Bool) (st : Store) (k : CacheKey) (f : Bool)
    (o : Outcome) (now : Nat) (r : GenerationResponseV)
    (h : (requestGeneration ro st k f o now).result = .completeResult r) :
    r.statusField = some "complete" ∧ r.book_id = k.book_id ∧
    r.sectionKind = k.sectionKind ∧ r.prompt_version = k.prompt_version ∧
    r.provider = k.provider ∧ r.model = k.model := by
  unfold requestGeneration generatePhase at h
  repeat' split at h
  all_goals simp_all [mkCompleteResp]
  all_goals subst h; simp [mkCompleteResp]

/-- C5 counterexample: the spec's pending marker lists a `status` field,
but the `GenerationPendingResponse` type declared in `src/api/client.ts`
has no `status` field at all. -/
theorem pending_marker_status_cex :
    "status" ∈ specPendingMarkerFieldNames ∧
    "status" ∉ generationPendingResponseFields.map TsField.fname := by decide

/-- C5 (amended): the declared pending marker consists of exactly the
fields `stored`, `in_progress`, `retry_after_ms` and the optional
`cache_key` — no `status` field — and every pending response the
Coordinator produces has `stored = false`, `in_progress = true`, a
strictly positive `retry_after_ms`, and carries the cache key. -/
theorem pending_marker_contract :
    generationPendingResponseFields.map TsField.fname =
      ["stored", "in_progress", "retry_after_ms", "cache_key"] ∧
    lookupTsField generationPendingResponseFields "status" = none ∧
    (lookupTsField generationPendingResponseFields "cache_key").map
      TsField.required = some false ∧
    (∀ ro st k f o now p,
      (requestGeneration ro st k f o now).result = .pendingResult p →
      p.stored = false ∧ p.in_progress = true ∧ 0 < p.retry_after_ms ∧
      p.cache_key = some k) := by
  refine ⟨by decide, by decide, by decide, ?_⟩
  intro ro st k f o now p h
  have hp := rg_pending_shape ro st k f o now p h
  subst hp
  simp [mkPending, RETRY_AFTER_MS]

/-- Witness for C5: a concrete poll of a pending record returns the
pending marker, and the amended contract applies to it. -/
theorem pending_marker_contract_witness :
    (requestGeneration true wStoreP2 wKey false (.success "x") 4).result =
      .pendingResult (mkPending wKey) ∧
    ((mkPending wKey).stored = false ∧ (mkPending wKey).in_progress = true ∧
      0 < (mkPending wKey).retry_after_ms ∧
      (mkPending wKey).cache_key = some wKey) := by
  have h : (requestGeneration true wStoreP2 wKey false (.success "x") 4).result =
      .pendingResult (mkPending wKey) := by decide
  exact ⟨h, pending_marker_contract.2.2.2 true wStoreP2 wKey false
    (.success "x") 4 (mkPending wKey) h⟩

/-- C6 counterexample: the spec marks `status` as an always-present field
of the success response, but the `GenerationResponse` declaration in
`src/api/client.ts` marks it optional (`status?`). -/
theorem generation_response_status_optional_cex :
    (lookupTsField generationResponseFields "status").map TsField.required =
      some false ∧
    specGenerationResponseStatusField.required = true := by decide

/-- C6 (amended): the declared success response consists of exactly the
fields `book_id`, `section`, `prompt_version`, `provider`, `model`,
`stored`, `status` and `content`, where `status` is optional with literal
type `"complete"` (so it equals `"complete"` whenever present but its
presence is not guaranteed by the declaration); every complete response
the Coordinator produces carries the key's identity fields and the literal
status value. -/
theorem generation_response_contract :
    generationResponseFields.map TsField.fname =
      ["book_id", "section", "prompt_version", "provider", "model",
       "stored", "status", "content"] ∧
    lookupTsField generationResponseFields "status" =
      some { fname := "status", required := false, ty := .tsStrLit "complete" } ∧
    (∀ ro st k f o now r,
      (requestGeneration ro st k f o now).result = .completeResult r →
      r.statusField = some "complete" ∧ r.book_id = k.book_id ∧
      r.sectionKind = k.sectionKind ∧ r.prompt_version = k.prompt_version ∧
      r.provider = k.provider ∧ r.model = k.model) := by
  refine ⟨by decide, by decide, ?_⟩
  intro ro st k f o now r h
  exact rg_complete_shape ro st k f o now r h

/-- Witness for C6: a concrete cached-content response and the amended
contract applied to it. -/
theorem generation_response_contract_witness :
    (requestGeneration true wStoreC wKey false (.success "x") 4).result =
      .completeResult (mkCompleteResp wKey (some "cached body") true) ∧
    ((mkCompleteResp wKey (some "cached body") true).statusField =
      some "complete") := by
  have h : (requestGeneration true wStoreC wKey false (.success "x") 4).result =
      .completeResult (mkCompleteResp wKey (some "cached body") true) := by decide
  exact ⟨h, (generation_response_contract.2.2 true wStoreC wKey false
    (.success "x") 4 (mkCompleteResp wKey (some "cached body") true) h).1⟩

/-- Whatever `extractWorks` captures is a full work id: the scan only
returns a suffix that passed the work-id test. -/
theorem extractWorks_sound (cs : List Char) : ∀ tail : List Char,
    extractWorks cs = some tail → isWorkIdChars tail = true := by
  induction cs with
  | nil => intro tail h; simp [extractWorks] at h
  | cons c rest ih =>
      intro tail h
      simp only [extractWorks] at h
      by_cases hc :
          (leadsWith "/works/".data (c :: rest) &&
            isWorkIdChars ((c :: rest).drop 7)) = true
      · rw [if_pos hc] at h
        injection h with h
        subst h
        simp only [Bool.and_eq_true] at hc
        exact hc.2
      · rw [if_neg hc] at h
        exact ih tail h

mutual
/-- A non-null result of `normalizeWorkId` always matches the anchored
work-id pattern, whatever JavaScript value it started from. -/
theorem normalizeWorkId_sound : ∀ (v : JsVal) (t : String),
    normalizeWorkId v = some t → isWorkIdChars t.data = true
  | .vstr s, t, h => by
      simp only [normalizeWorkId, normStr] at h
      by_cases hw : isWorkIdChars s.data = true
      · rw [if_pos hw] at h
        injection h with h
        subst h
        exact hw
      · rw [if_neg hw] at h
        cases hx : extractWorks s.data with
        | none => rw [hx] at h; cases h
        | some tail =>
            rw [hx] at h
            injection h with h
            subst h
            exact extractWorks_sound s.data tail hx
  | .vobj fields, t, h => by
      simp only [normalizeWorkId] at h
      cases h1 : normLookup fields "work_id" with
      | some r =>
          rw [h1] at h
          injection h with h
          subst h
          exact normLookup_sound fields "work_id" _ h1
      | none =>
          rw [h1] at h
          cases h2 : normLookup fields "id" with
          | some r =>
              rw [h2] at h
              injection h with h
              subst h
              exact normLookup_sound fields "id" _ h2
          | none =>
              rw [h2] at h
              exact normLookup_sound fields "key" t h
  | .vother, t, h => by simp [normalizeWorkId] at h
termination_by structural v => v

/-- A non-null result of recursing into an object property always
matches the anchored work-id pattern. -/
theorem normLookup_sound : ∀ (fs : JsFields) (name t : String),
    normLookup fs name = some t → isWorkIdChars t.data = true
  | .fnil, _, t, h => by simp [normLookup] at h
  | .fcons k v rest, name, t, h => by
      simp only [normLookup] at h
      by_cases hk : k = name
      · rw [if_pos hk] at h
        exact normalizeWorkId_sound v t h
      · rw [if_neg hk] at h
        exact normLookup_sound rest name t h
termination_by structural fs _ _ => fs
end

/-- C9: `normalizeWorkId` returns null or a string matching the anchored
pattern `OL` + digits + `W` exactly; consequently applying it again to any
non-null result returns that result unchanged. -/
theorem normalizeWorkId_shape (v : JsVal) (t : String)
    (h : normalizeWorkId v = some t) :
    isWorkIdChars t.data = true ∧ normalizeWorkId (.vstr t) = some t := by
  have hW := normalizeWorkId_sound v t h
  refine ⟨hW, ?_⟩
  simp [normalizeWorkId, normStr, hW]

/-- A concrete JavaScript object whose `id` property holds an OpenLibrary
work URL, for the normalization witness. -/
def wObj : JsVal :=
  .vobj (.fcons "title" (.vstr "Dune")
    (.fcons "id" (.vstr "https://openlibrary.org/works/OL42W") .fnil))

/-- Witness for C9: normalizing a concrete object extracts `OL42W`, which
matches the pattern and is a fixed point of normalization. -/
theorem normalizeWorkId_shape_witness :
    normalizeWorkId wObj = some "OL42W" ∧
    isWorkIdChars "OL42W".data = true ∧
    normalizeWorkId (.vstr "OL42W") = some "OL42W" := by
  have h : normalizeWorkId wObj = some "OL42W" := by decide
  exact ⟨h, normalizeWorkId_shape wObj "OL42W" h⟩

/-- C10 counterexample: a non-ok response whose JSON body fails to parse
does not reject with an `ApiError` — `requestJson` rethrows the parse
error unchanged, so the claim that every non-ok response yields an
`ApiError` fails on this input. -/
def wBadJson : FetchResponse :=
  { ok := false, status := 500, contentType := some "application/json"
    jsonResult := .error .otherErr, textResult := .ok "" }

/-- A plain-text non-ok response whose body parses, for the witness. -/
def wTextResp : FetchResponse :=
  { ok := false, status := 500, contentType := some "text/plain"
    jsonResult := .ok .jnull, textResult := .ok "boom" }

/-- C10 counterexample: on a 500 response with `content-type:
application/json` and an unparseable body, `requestJson` rejects with the
rethrown parse error, not with an `ApiError`. -/
theorem requestJson_apierror_cex :
    wBadJson.ok = false ∧
    requestJsonModel (.resp wBadJson) = .rejected .otherErr ∧
    isApiErrorRejection (requestJsonModel (.resp wBadJson)) = false := by
  exact ⟨rfl, rfl, rfl⟩

/-- C10 (amended): `requestJson` never fulfills with a non-ok response;
for every non-ok response whose body parses, it rejects with an `ApiError`
carrying the response's HTTP status and the parsed body; every abort or
timeout — whether thrown by `fetch` or by the body read — surfaces as an
`ApiError` with status 408 and never as an unwrapped `AbortError`;
body-parse failures propagate as the thrown error itself. -/
theorem requestJson_contract :
    (∀ f b, requestJsonModel f = .fulfilled b → ∃ r, f = .resp r ∧ r.ok = true) ∧
    (∀ r body, r.ok = false → parseBodyModel r = .ok body →
      requestJsonModel (.resp r) =
        .rejected (.apiError (errMessage body r.status) r.status body)) ∧
    requestJsonModel (.ferr (.domException "AbortError")) =
      .rejected (.apiError "Request timed out or was cancelled" 408 .jnull) ∧
    (∀ r, r.jsonResult = .error (.domException "AbortError") →
      hasSub "application/json".data ((r.contentType.getD "").data) = true →
      requestJsonModel (.resp r) =
        .rejected (.apiError "Request timed out or was cancelled" 408 .jnull)) ∧
    (∀ f, requestJsonModel f ≠ .rejected (.domException "AbortError")) := by
  refine ⟨?_, ?_, ?_, ?_, ?_⟩
  · intro f b h
    cases htp : tryPhase f with
    | error e =>
        exfalso
        cases e with
        | domException nm =>
            by_cases hnm : nm = "AbortError" <;>
              simp [requestJsonModel, htp, hnm] at h
        | apiError m stc bd => simp [requestJsonModel, htp] at h
        | otherErr => simp [requestJsonModel, htp] at h
    | ok body =>
        cases f with
        | ferr e => simp [tryPhase] at htp
        | resp r =>
            cases hpb : parseBodyModel r with
            | error e => simp [tryPhase, hpb] at htp
            | ok body2 =>
                by_cases hok : r.ok = false
                · simp [tryPhase, hpb, hok] at htp
                · simp at hok
                  exact ⟨r, rfl, hok⟩
  · intro r body hok hpb
    simp [requestJsonModel, tryPhase, hpb, hok]
  · simp [requestJsonModel, tryPhase]
  · intro r hjson hct
    simp [requestJsonModel, tryPhase, parseBodyModel, hct, hjson]
  · intro f
    cases htp : tryPhase f with
    | ok b => simp [requestJsonModel, htp]
    | error e =>
        cases e with
        | domException nm =>
            by_cases hnm : nm = "AbortError" <;>
              simp [requestJsonModel, htp, hnm]
        | apiError m stc bd => simp [requestJsonModel, htp]
        | otherErr => simp [requestJsonModel, htp]

/-- Witness for C10: a concrete non-ok plain-text response rejects with
the `ApiError` built from its status and parsed body. -/
theorem requestJson_contract_witness :
    wTextResp.ok = false ∧
    parseBodyModel wTextResp = .ok (.jstr "boom") ∧
    requestJsonModel (.resp wTextResp) =
      .rejected (.apiError (errMessage (.jstr "boom") 500) 500 (.jstr "boom")) := by
  have h1 : wTextResp.ok = false := rfl
  have h2 : parseBodyModel wTextResp = .ok (.jstr "boom") := rfl
  exact ⟨h1, h2, requestJson_contract.2.1 wTextResp (.jstr "boom") h1 h2⟩

/-- One step of the restricted interleaving preserves the single-flight
invariant. -/
theorem cstep_preserves_SFInv {n : Nat} (k : CacheKey) (s s' : CState n)
    (hstep : cstep k s s') (hinv : SFInv k s) : SFInv k s' := by
  cases hstep with
  | lookAbsent i hpc hst =>
      unfold SFInv
      dsimp only
      rcases hinv with ⟨hnone, hp0, hf0, hall⟩ | ⟨row, w, hrow, _, _, _⟩
      · left
        refine ⟨hnone, hp0, hf0, fun j => ?_⟩
        by_cases hj : j = i
        · subst hj
          simp [Function.update_same]
        · rw [Function.update_noteq hj]
          exact hall j
      · rw [hrow] at hst
        cases hst
  | lookPending i row hpc hst hrow =>
      unfold SFInv
      dsimp only
      rcases hinv with ⟨hnone, _, _, _⟩ | ⟨row0, w, hrow0, hatt, hwin, hothers⟩
      · rw [hnone] at hst
        cases hst
      · by_cases hiw : i = w
        · exfalso
          subst hiw
          rcases hwin with ⟨h1, _, _, _⟩ | ⟨o, h1, _, _, _⟩ | ⟨o, h1, _, _, _⟩ <;>
            rw [hpc] at h1 <;> simp at h1
        · right
          refine ⟨row0, w, hrow0, hatt, ?_, fun j hj => ?_⟩
          · rw [Function.update_noteq (fun h => hiw h.symm)]
            exact hwin
          · by_cases hji : j = i
            · subst hji
              rw [Function.update_same]
              right; right; right; rfl
            · rw [Function.update_noteq hji]
              exact hothers j hj
  | claimWin i now t st1 hpc hc =>
      unfold SFInv
      dsimp only
      rcases hinv with ⟨hnone, hp0, hf0, hall⟩ | ⟨row0, w, hrow0, _, _, _⟩
      · rw [show claimNew s.store k now =
            (.claimed 1,
             setRow s.store k
               { status := .pending
                 content := none
                 error_code := none
                 error_message := none
                 attempt_count := 1
                 started_at := now
                 finished_at := none
                 created_at := now
                 updated_at := now }) from by simp [claimNew, hnone]] at hc
        injection hc with hc1 hc2
        injection hc1 with hc1
        right
        refine ⟨{ status := .pending
                  content := none
                  error_code := none
                  error_message := none
                  attempt_count := 1
                  started_at := now
                  finished_at := none
                  created_at := now
                  updated_at := now }, i, ?_, rfl, ?_, fun j hj => ?_⟩
        · rw [← hc2]
          simp [setRow]
        · left
          refine ⟨?_, rfl, hp0, hf0⟩
          rw [Function.update_same, ← hc1]
        · rw [Function.update_noteq hj]
          rcases hall j with h | h
          · exact Or.inl h
          · exact Or.inr (Or.inl h)
      · exfalso
        simp [claimNew, hrow0] at hc
  | claimLose i now hpc hc =>
      unfold SFInv
      dsimp only
      rcases hinv with ⟨hnone, _, _, _⟩ | ⟨row0, w, hrow0, hatt, hwin, hothers⟩
      · exfalso
        simp [claimNew, hnone] at hc
      · by_cases hiw : i = w
        · exfalso
          subst hiw
          rcases hwin with ⟨h1, _, _, _⟩ | ⟨o, h1, _, _, _⟩ | ⟨o, h1, _, _, _⟩ <;>
            rw [hpc] at h1 <;> simp at h1
        · right
          refine ⟨row0, w, hrow0, hatt, ?_, fun j hj => ?_⟩
          · rw [Function.update_noteq (fun h => hiw h.symm)]
            exact hwin
          · by_cases hji : j = i
            · subst hji
              rw [Function.update_same]
              right; right; left; rfl
            · rw [Function.update_noteq hji]
              exact hothers j hj
  | relook i hpc =>
      unfold SFInv
      dsimp only
      rcases hinv with ⟨hnone, _, _, hall⟩ | ⟨row0, w, hrow0, hatt, hwin, hothers⟩
      · exfalso
        rcases hall i with h | h <;> rw [hpc] at h <;> simp at h
      · by_cases hiw : i = w
        · exfalso
          subst hiw
          rcases hwin with ⟨h1, _, _, _⟩ | ⟨o, h1, _, _, _⟩ | ⟨o, h1, _, _, _⟩ <;>
            rw [hpc] at h1 <;> simp at h1
        · right
          refine ⟨row0, w, hrow0, hatt, ?_, fun j hj => ?_⟩
          · rw [Function.update_noteq (fun h => hiw h.symm)]
            exact hwin
          · by_cases hji : j = i
            · subst hji
              rw [Function.update_same]
              right; right; right; rfl
            · rw [Function.update_noteq hji]
              exact hothers j hj
  | produce i t o hpc =>
      unfold SFInv
      dsimp only
      rcases hinv with ⟨hnone, _, _, hall⟩ | ⟨row0, w, hrow0, hatt, hwin, hothers⟩
      · exfalso
        rcases hall i with h | h <;> rw [hpc] at h <;> simp at h
      · by_cases hiw : i = w
        · subst hiw
          rcases hwin with ⟨h1, hpend, hp0, hf0⟩ | ⟨o', h1, _, _, _⟩ | ⟨o', h1, _, _, _⟩
          · rw [hpc] at h1
            injection h1 with ht
            right
            refine ⟨row0, i, hrow0, hatt, ?_, fun j hj => ?_⟩
            · right; left
              refine ⟨o, ?_, hpend, by rw [hp0], hf0⟩
              rw [Function.update_same, ht]
            · rw [Function.update_noteq hj]
              exact hothers j hj
          · exfalso
            rw [hpc] at h1
            simp at h1
          · exfalso
            rw [hpc] at h1
            simp at h1
        · exfalso
          rcases hothers i hiw with h | h | h | h <;> rw [hpc] at h <;> simp at h
  | finishCommit i t o now st1 hpc hf =>
      unfold SFInv
      dsimp only
      rcases hinv with ⟨hnone, _, _, hall⟩ | ⟨row0, w, hrow0, hatt, hwin, hothers⟩
      · exfalso
        rcases hall i with h | h <;> rw [hpc] at h <;> simp at h
      · by_cases hiw : i = w
        · subst hiw
          rcases hwin with ⟨h1, _, _, _⟩ | ⟨o', h1, hpend, hp1, hf0⟩ | ⟨o', h1, _, _, _⟩
          · exfalso
            rw [hpc] at h1
            simp at h1
          · rw [hpc] at h1
            injection h1 with ht ho
            subst ht
            subst ho
            cases o with
            | success c =>
                rw [show finish s.store k 1 (.success c) now =
                    (.finished,
                     setRow s.store k
                       { row0 with
                         status := .complete
                         content := some c
                         finished_at := some now
                         updated_at := now }) from by
                  simp [finish, hrow0, hatt, hpend]] at hf
                injection hf with hf1 hf2
                right
                refine ⟨{ row0 with
                          status := .complete
                          content := some c
                          finished_at := some now
                          updated_at := now }, i, ?_, ?_, ?_, fun j hj => ?_⟩
                · rw [← hf2]
                  simp [setRow]
                · exact hatt
                · right; right
                  refine ⟨.success c, ?_, rfl, hp1, by rw [hf0]⟩
                  rw [Function.update_same]
                · rw [Function.update_noteq hj]
                  exact hothers j hj
            | failure e m =>
                rw [show finish s.store k 1 (.failure e m) now =
                    (.finished,
                     setRow s.store k
                       { row0 with
                         status := .failed
                         error_code := some e
                         error_message := some m
                         finished_at := some now
                         updated_at := now }) from by
                  simp [finish, hrow0, hatt, hpend]] at hf
                injection hf with hf1 hf2
                right
                refine ⟨{ row0 with
                          status := .failed
                          error_code := some e
                          error_message := some m
                          finished_at := some now
                          updated_at := now }, i, ?_, ?_, ?_, fun j hj => ?_⟩
                · rw [← hf2]
                  simp [setRow]
                · exact hatt
                · right; right
                  refine ⟨.failure e m, ?_, rfl, hp1, by rw [hf0]⟩
                  rw [Function.update_same]
                · rw [Function.update_noteq hj]
                  exact hothers j hj
          · exfalso
            rw [hpc] at h1
            simp at h1
        · exfalso
          rcases hothers i hiw with h | h | h | h <;> rw [hpc] at h <;> simp at h
  | finishStale i t o now hpc hf =>
      unfold SFInv
      dsimp only
      rcases hinv with ⟨hnone, _, _, hall⟩ | ⟨row0, w, hrow0, hatt, hwin, hothers⟩
      · exfalso
        rcases hall i with h | h <;> rw [hpc] at h <;> simp at h
      · by_cases hiw : i = w
        · exfalso
          subst hiw
          rcases hwin with ⟨h1, _, _, _⟩ | ⟨o', h1, hpend, _, _⟩ | ⟨o', h1, _, _, _⟩
          · rw [hpc] at h1
            simp at h1
          · rw [hpc] at h1
            injection h1 with ht ho
            subst ht
            subst ho
            cases o with
            | success c => simp [finish, hrow0, hatt, hpend] at hf
            | failure e m => simp [finish, hrow0, hatt, hpend] at hf
          · rw [hpc] at h1
            simp at h1
        · exfalso
          rcases hothers i hiw with h | h | h | h <;> rw [hpc] at h <;> simp at h

/-- The single-flight invariant holds in every state reachable from a
state satisfying it. -/
theorem reach_SFInv {n : Nat} (k : CacheKey) (s0 s : CState n)
    (h0 : SFInv k s0) (hr : Relation.ReflTransGen (cstep k) s0 s) :
    SFInv k s := by
  induction hr with
  | refl => exact h0
  | tail _ hstep ih => exact cstep_preserves_SFInv k _ _ hstep ih

/-- C1: in any restricted-interleaving execution in which `n` concurrent
`RequestGeneration` calls arrive while the key is absent and all of them
complete, exactly one external producer invocation occurs, exactly one
transition to `Complete` or `Failed` is committed, one session returns the
fresh complete or failed result, and the other `n - 1` sessions all
receive the pending response — so at most one external generation call is
ever in flight per cache key. -/
theorem single_flight {n : Nat} (k : CacheKey) (st0 : Store) (hn : 0 < n)
    (h0 : st0 k = none) (s : CState n)
    (hr : Relation.ReflTransGen (cstep k) (initState n st0) s)
    (hdone : ∀ i, ∃ r, s.pcs i = .sdone r) :
    s.prodCount = 1 ∧ s.finCount = 1 ∧
    ∃ w : Fin n,
      ((∃ c, s.pcs w = .sdone (.rComplete c)) ∨ s.pcs w = .sdone .rFailed) ∧
      (∀ i, i ≠ w → s.pcs i = .sdone .rPending) ∧
      ∃ row, s.store k = some row ∧
        (row.status = .complete ∨ row.status = .failed) := by
  have hinit : SFInv k (initState n st0) := by
    left
    exact ⟨h0, rfl, rfl, fun i => Or.inl rfl⟩
  have hinv := reach_SFInv k _ s hinit hr
  rcases hinv with ⟨_, _, _, hall⟩ | ⟨row, w, hrow, hatt, hwin, hothers⟩
  · exfalso
    obtain ⟨r, hr0⟩ := hdone ⟨0, hn⟩
    rcases hall ⟨0, hn⟩ with h | h <;> rw [hr0] at h <;> simp at h
  · rcases hwin with ⟨h1, _, _, _⟩ | ⟨o, h1, _, _, _⟩ | ⟨o, h1, hs, hp, hf⟩
    · exfalso
      obtain ⟨r, hrw⟩ := hdone w
      rw [hrw] at h1
      simp at h1
    · exfalso
      obtain ⟨r, hrw⟩ := hdone w
      rw [hrw] at h1
      simp at h1
    · refine ⟨hp, hf, w, ?_, ?_, row, hrow, ?_⟩
      · cases o with
        | success c => exact Or.inl ⟨some c, h1⟩
        | failure e m => exact Or.inr h1
      · intro i hi
        rcases hothers i hi with h | h | h | h
        · exfalso
          obtain ⟨r, hri⟩ := hdone i
          rw [hri] at h
          simp at h
        · exfalso
          obtain ⟨r, hri⟩ := hdone i
          rw [hri] at h
          simp at h
        · exfalso
          obtain ⟨r, hri⟩ := hdone i
          rw [hri] at h
          simp at h
        · exact h
      · cases o with
        | success c => exact Or.inl hs
        | failure e m => exact Or.inr hs

/-- The row created by the witness winner's claim at time 10. -/
def wRow1 : GenRow :=
  { status := .pending, content := none, error_code := none
    error_message := none, attempt_count := 1, started_at := 10
    finished_at := none, created_at := 10, updated_at := 10 }

/-- The row after the witness winner's successful finish at time 20. -/
def wRow2 : GenRow :=
  { status := .complete, content := some "fresh", error_code := none
    error_message := none, attempt_count := 1, started_at := 10
    finished_at := some 20, created_at := 10, updated_at := 20 }

/-- All-sessions-at-lookup control state for two witness sessions. -/
def wPcs0 : Fin 2 → SPC := fun _ => .atLookup

/-- The final state of the concrete two-session witness execution. -/
def wS5 : CState 2 :=
  { store := setRow (setRow emptyStore wKey wRow1) wKey wRow2
    pcs := Function.update (Function.update (Function.update
      (Function.update (Function.update wPcs0 0 .atClaim) 0 (.atProduce 1))
      1 (.sdone .rPending)) 0 (.atFinish 1 (.success "fresh")))
      0 (.sdone (.rComplete (some "fresh")))
    prodCount := 1
    finCount := 1 }

/-- A concrete two-session execution: session 0 looks up the absent key,
wins the claim, produces and finishes successfully; session 1 looks up the
pending row and receives the pending response. -/
theorem wS5_reachable :
    Relation.ReflTransGen (cstep wKey) (initState 2 emptyStore) wS5 := by
  exact .head (cstep.lookAbsent _ 0 rfl rfl)
    (.head (cstep.claimWin _ 0 10 1 (setRow emptyStore wKey wRow1)
        (by decide) rfl)
      (.head (cstep.lookPending _ 1 wRow1 (by decide) (by decide) rfl)
        (.head (cstep.produce _ 0 1 (.success "fresh") (by decide))
          (.head (cstep.finishCommit _ 0 1 (.success "fresh") 20
              (setRow (setRow emptyStore wKey wRow1) wKey wRow2)
              (by decide) rfl)
            .refl))))

/-- Witness for C1: the single-flight theorem applied to the concrete
two-session execution. -/
theorem single_flight_witness :
    (0 : Nat) < 2 ∧ emptyStore wKey = none ∧
    (wS5.prodCount = 1 ∧ wS5.finCount = 1 ∧
      ∃ w : Fin 2,
        ((∃ c, wS5.pcs w = .sdone (.rComplete c)) ∨
          wS5.pcs w = .sdone .rFailed) ∧
        (∀ i, i ≠ w → wS5.pcs i = .sdone .rPending) ∧
        ∃ row, wS5.store wKey = some row ∧
          (row.status = .complete ∨ row.status = .failed)) := by
  refine ⟨by decide, rfl, ?_⟩
  refine single_flight wKey emptyStore (by decide) rfl wS5 wS5_reachable ?_
  intro i
  fin_cases i
  · exact ⟨.rComplete (some "fresh"), by decide⟩
  · exact ⟨.rPending, by decide⟩

end BookWise
